import Mathlib

/-!
Shallow embedding of the `10clear` PDF-viewer application (React + pdf.js +
lunr).  The repository holds three iterations of the same `App` component:

* `src/App.tsx`          — the "main view" (single rendered page, API-driven
                           bounding boxes, lunr search over API elements);
* `src/unnamed/part_000` — earliest version (zoom / page navigation only);
* `src/unnamed/part_001` — search over extracted pdf.js text items;
* `src/unnamed/part_002` — multi-page viewer with a lunr index over extracted
                           text items and JSON-driven bbox highlights.

JavaScript numbers are modelled as `ℚ` (the arithmetic under scrutiny is
exact decimal arithmetic; no claim depends on float rounding).  External
libraries (pdf.js, lunr, `JSON.parse`) are modelled as parameters or as the
data they return.
-/

namespace Shared

/-- A stored highlight rectangle of the main view / part_001
(screen-space left, top, width, height, in unscaled page units). -/
structure Highlight where
  left : ℚ
  top : ℚ
  width : ℚ
  height : ℚ
  deriving DecidableEq, Repr

/-- Rendered CSS box of an overlay `div` (left, top, width, height, px). -/
structure Style where
  left : ℚ
  top : ℚ
  width : ℚ
  height : ℚ
  deriving DecidableEq, Repr

/-- `App.tsx` (575-586) / `part_001` (297-308) / `part_002` (310-321):
`style=\x7b left: highlight.left * scale, top: highlight.top * scale,
width: highlight.width * scale, height: highlight.height * scale \x7d`. -/
def highlightStyle (h : Highlight) (scale : ℚ) : Style :=
  { left := h.left * scale
    top := h.top * scale
    width := h.width * scale
    height := h.height * scale }

/-- A bbox highlight of `part_002` (lines 28-33): `bbox` is the stored
4-number array `[left, top, right, bottom]` (already converted to
top-left origin by `parseJsonToHighlights`). -/
structure BBoxHighlight where
  id : String
  page : ℕ
  bbox : List ℚ
  value : String
  deriving DecidableEq, Repr

/-- `part_002` (335-344): `style=\x7b left: highlight.bbox[0] * scale,
top: highlight.bbox[1] * scale, width: (highlight.bbox[2] -
highlight.bbox[0]) * scale, height: (highlight.bbox[3] - highlight.bbox[1])
* scale \x7d`. -/
def bboxStyle (b : BBoxHighlight) (scale : ℚ) : Style :=
  { left := b.bbox.getD 0 0 * scale
    top := b.bbox.getD 1 0 * scale
    width := (b.bbox.getD 2 0 - b.bbox.getD 0 0) * scale
    height := (b.bbox.getD 3 0 - b.bbox.getD 1 0) * scale }

/-- `App.tsx` 176-178 / part_000 28-30 / part_001 49-51:
`setScale((prevScale) => Math.min(prevScale + 0.1, 2.0))`. -/
def handleZoomIn (scale : ℚ) : ℚ := min (scale + 1/10) 2

/-- `App.tsx` 180-182 / part_000 32-34 / part_001 53-55:
`setScale((prevScale) => Math.max(prevScale - 0.1, 0.5))`. -/
def handleZoomOut (scale : ℚ) : ℚ := max (scale - 1/10) (1/2)

/-- A zoom button press (Zoom In or Zoom Out). -/
inductive ZoomOp where
  | zoomIn
  | zoomOut
  deriving DecidableEq, Repr

/-- Effect of one zoom button press on the scale state. -/
def applyZoom (op : ZoomOp) (scale : ℚ) : ℚ :=
  match op with
  | .zoomIn => handleZoomIn scale
  | .zoomOut => handleZoomOut scale

/-- The `metadata` state of `App.tsx` (62-72) and part_000 (10-20). -/
structure Metadata where
  totalPages : ℤ
  currentPage : ℤ
  height : ℚ
  width : ℚ
  deriving DecidableEq, Repr

/-- `App.tsx` 184-189 / part_000 36-41:
`currentPage: Math.max(prev.currentPage - 1, 1)`, other fields spread. -/
def handlePrevPage (m : Metadata) : Metadata :=
  { m with currentPage := max (m.currentPage - 1) 1 }

/-- `App.tsx` 191-196 / part_000 43-48:
`currentPage: Math.min(prev.currentPage + 1, prev.totalPages)`. -/
def handleNextPage (m : Metadata) : Metadata :=
  { m with currentPage := min (m.currentPage + 1) m.totalPages }

lemma applyZoom_mem (op : ZoomOp) (s : ℚ) (h1 : 1/2 ≤ s) (h2 : s ≤ 2) :
    1/2 ≤ applyZoom op s ∧ applyZoom op s ≤ 2 := by
  cases op <;>
    simp only [applyZoom, handleZoomIn, handleZoomOut, le_min_iff, min_le_iff,
      le_max_iff, max_le_iff] <;>
    constructor <;> first
      | exact Or.inl (by linarith)
      | exact Or.inr (by linarith)
      | constructor <;> linarith

lemma foldZoom_mem (ops : List ZoomOp) (s : ℚ) (h1 : 1/2 ≤ s) (h2 : s ≤ 2) :
    1/2 ≤ ops.foldl (fun t op => applyZoom op t) s ∧
      ops.foldl (fun t op => applyZoom op t) s ≤ 2 := by
  induction ops generalizing s with
  | nil => exact ⟨h1, h2⟩
  | cons op ops ih =>
      have h := applyZoom_mem op s h1 h2
      simpa using ih (applyZoom op s) h.1 h.2

end Shared

/-- Claim C8: the zoom scale always stays within [0.5, 2.0]: from any scale
in that interval, `handleZoomIn` produces `min(scale + 0.1, 2.0)` and
`handleZoomOut` produces `max(scale - 0.1, 0.5)`, and every sequence of
zoom-in / zoom-out presses starting inside the interval stays inside it. -/
theorem Shared.zoom_scale_invariant (s : ℚ) (h1 : 1/2 ≤ s) (h2 : s ≤ 2) :
    handleZoomIn s = min (s + 1/10) 2 ∧
    handleZoomOut s = max (s - 1/10) (1/2) ∧
    ∀ ops : List ZoomOp,
      1/2 ≤ ops.foldl (fun t op => applyZoom op t) s ∧
        ops.foldl (fun t op => applyZoom op t) s ≤ 2 := by
  refine ⟨rfl, rfl, fun ops => foldZoom_mem ops s h1 h2⟩

/-- Witness for C8 at the initial scale 1.0 and a concrete press sequence. -/
theorem Shared.zoom_scale_invariant_witness :
    Shared.handleZoomIn 1 = min (1 + 1/10) 2 ∧
    Shared.handleZoomOut 1 = max (1 - 1/10) (1/2) ∧
    ∀ ops : List Shared.ZoomOp,
      1/2 ≤ ops.foldl (fun t op => Shared.applyZoom op t) 1 ∧
        ops.foldl (fun t op => Shared.applyZoom op t) 1 ≤ 2 :=
  Shared.zoom_scale_invariant 1 (by norm_num) (by norm_num)

/-- Claim C9: with `totalPages ≥ 1` and `currentPage ∈ [1, totalPages]`,
`handlePrevPage` and `handleNextPage` keep `currentPage` in
`[1, totalPages]` (Previous clamps at 1, Next at totalPages) and leave
`totalPages`, `height` and `width` unchanged. -/
theorem Shared.page_nav_invariant (m : Shared.Metadata)
    (htp : 1 ≤ m.totalPages) (h1 : 1 ≤ m.currentPage)
    (h2 : m.currentPage ≤ m.totalPages) :
    (1 ≤ (handlePrevPage m).currentPage ∧
      (handlePrevPage m).currentPage ≤ m.totalPages) ∧
    (1 ≤ (handleNextPage m).currentPage ∧
      (handleNextPage m).currentPage ≤ m.totalPages) ∧
    (handlePrevPage m).totalPages = m.totalPages ∧
    (handlePrevPage m).height = m.height ∧
    (handlePrevPage m).width = m.width ∧
    (handleNextPage m).totalPages = m.totalPages ∧
    (handleNextPage m).height = m.height ∧
    (handleNextPage m).width = m.width := by
  refine ⟨⟨?_, ?_⟩, ⟨?_, ?_⟩, rfl, rfl, rfl, rfl, rfl, rfl⟩ <;>
    simp only [handlePrevPage, handleNextPage, le_max_iff, max_le_iff,
      le_min_iff, min_le_iff] <;> omega

/-- Witness for C9 on a concrete 3-page document at page 2. -/
theorem Shared.page_nav_invariant_witness :
    (1 ≤ (Shared.handlePrevPage ⟨3, 2, 800, 600⟩).currentPage ∧
      (Shared.handlePrevPage ⟨3, 2, 800, 600⟩).currentPage ≤ (3:ℤ)) ∧
    (1 ≤ (Shared.handleNextPage ⟨3, 2, 800, 600⟩).currentPage ∧
      (Shared.handleNextPage ⟨3, 2, 800, 600⟩).currentPage ≤ (3:ℤ)) ∧
    (Shared.handlePrevPage ⟨3, 2, 800, 600⟩).totalPages = (3:ℤ) ∧
    (Shared.handlePrevPage ⟨3, 2, 800, 600⟩).height = (800:ℚ) ∧
    (Shared.handlePrevPage ⟨3, 2, 800, 600⟩).width = (600:ℚ) ∧
    (Shared.handleNextPage ⟨3, 2, 800, 600⟩).totalPages = (3:ℤ) ∧
    (Shared.handleNextPage ⟨3, 2, 800, 600⟩).height = (800:ℚ) ∧
    (Shared.handleNextPage ⟨3, 2, 800, 600⟩).width = (600:ℚ) :=
  Shared.page_nav_invariant ⟨3, 2, 800, 600⟩ (by norm_num) (by norm_num)
    (by norm_num)

/-- Claim C7: every highlight overlay is drawn at the stored rectangle
scaled componentwise by the current zoom scale: for the main-view
`Highlight` overlays the style is `(left*s, top*s, width*s, height*s)`,
and for the part_002 bbox overlays the style at scale `s` is the style at
scale 1 scaled componentwise by `s`. -/
theorem Shared.overlay_style_scales (h : Shared.Highlight)
    (b : Shared.BBoxHighlight) (s : ℚ) :
    highlightStyle h s =
      { left := h.left * s, top := h.top * s,
        width := h.width * s, height := h.height * s } ∧
    bboxStyle b s =
      { left := (bboxStyle b 1).left * s, top := (bboxStyle b 1).top * s,
        width := (bboxStyle b 1).width * s,
        height := (bboxStyle b 1).height * s } := by
  refine ⟨rfl, ?_⟩
  simp only [bboxStyle, mul_one]

namespace Viewer2

/-!
Embedding of `src/unnamed/part_002`: the multi-page viewer with a lunr
index over pdf.js text items and JSON-driven bbox highlights.
-/

/-- A pdf.js `TextItem` as used by part_002.  In pdf.js `transform` is a
6-number matrix and `width`/`height` are numbers; the source nevertheless
guards with `match.transform || [1, 0, 0, 1, 0, 0]` and
`match.width || 0` / `match.height || 0`, so the fields are modelled as
optional with those defaults applied at use sites. -/
structure TextItem where
  str : String
  transform : Option (List ℚ)
  width : Option ℚ
  height : Option ℚ
  deriving DecidableEq, Repr

/-- JS `\w` character class (ASCII letters, digits, underscore). -/
def isWordChar (c : Char) : Bool := c.isAlphanum || c = '_'

/-- Whether `new RegExp("\\b" + pat + "\\b", "i")` matches `txt` at
position `s`: the pattern's characters match case-insensitively and both
ends sit on a word boundary.  Faithful for a search text that is a
non-empty run of word characters (the only patterns for which the source's
interpolated regex is a literal whole-word search). -/
def wwMatchAt (pat txt : List Char) (s : ℕ) : Bool :=
  (((txt.drop s).take pat.length).map Char.toLower == pat.map Char.toLower) &&
  (s == 0 || !(isWordChar (txt.getD (s - 1) ' '))) &&
  (s + pat.length == txt.length || !(isWordChar (txt.getD (s + pat.length) ' ')))

/-- `text.match(regex)` for the whole-word regex: index of the leftmost
whole-word occurrence of `searchText` in `txt`, or `none`. -/
def wwIndex (searchText txt : String) : Option ℕ :=
  (List.range (txt.toList.length + 1)).find? (wwMatchAt searchText.toList txt.toList)

/-- part_002 lines 86-114, `calculateHighlights(matches, viewport,
searchText)`: for each text run whose string matches the whole-word regex,
pushes one highlight at `left = transform[4] + start * charWidth`,
`top = viewport.height - transform[5] - 10`,
`width = searchText.length * charWidth`, `height = match.height || 0`,
with `charWidth = (match.width || 0) / text.length`. -/
def calculateHighlights (ms : List TextItem) (viewportHeight : ℚ)
    (searchText : String) : List Shared.Highlight :=
  ms.filterMap (fun m =>
    match wwIndex searchText m.str with
    | some s =>
        let transform := m.transform.getD [1, 0, 0, 1, 0, 0]
        let charWidth := m.width.getD 0 / (m.str.length : ℚ)
        some { left := transform.getD 4 0 + (s : ℚ) * charWidth,
               top := viewportHeight - transform.getD 5 0 - 10,
               width := (searchText.length : ℚ) * charWidth,
               height := m.height.getD 0 }
    | none => none)

/-- A node of the structured-document JSON (`schema.ts` `Children`): only
the fields part_002 reads.  `bbox` is the 4-number array
`[x1, y1, x2, y2]` in PDF space; `page` and `bbox` can be absent in the
deeper `Children4`..`Children8` shapes, and the source's truthiness guard
`node.page` also rejects page 0. -/
inductive Child where
  | mk (id : String) (page : Option ℕ) (value : String)
       (bbox : Option (ℚ × ℚ × ℚ × ℚ)) (children : List Child)

def Child.id : Child → String
  | .mk i _ _ _ _ => i

def Child.page : Child → Option ℕ
  | .mk _ p _ _ _ => p

def Child.value : Child → String
  | .mk _ _ v _ _ => v

def Child.bbox : Child → Option (ℚ × ℚ × ℚ × ℚ)
  | .mk _ _ _ b _ => b

def Child.children : Child → List Child
  | .mk _ _ _ _ cs => cs

mutual
/-- The `traverse` closure of `parseJsonToHighlights` (part_002 237-262):
if `node.bbox && node.value && node.page`, push one highlight with bbox
`[x1, viewport.height - y2, x2, viewport.height - y1]`, then recurse into
the children.  `H p` is the unscaled viewport height of page `p`. -/
def traverse (H : ℕ → ℚ) : Child → List Shared.BBoxHighlight
  | .mk id page value bbox children =>
      (match bbox, page with
       | some (x1, y1, x2, y2), some p =>
           if value ≠ "" ∧ p ≠ 0 then
             [{ id := id, page := p,
                bbox := [x1, H p - y2, x2, H p - y1], value := value }]
           else []
       | _, _ => []) ++ traverseChildren H children

/-- `for (const child of node.children) await traverse(child)` /
`for (const node of nodes) await traverse(node)`. -/
def traverseChildren (H : ℕ → ℚ) : List Child → List Shared.BBoxHighlight
  | [] => []
  | c :: cs => traverse H c ++ traverseChildren H cs
end

/-- part_002 230-268.  `doc` is `pdfDocumentRef.current`, modelled as the
pages' unscaled viewport heights (`page.getViewport(\x7b scale: 1.0 \x7d).height`);
when no document is loaded the function returns the empty list. -/
def parseJsonToHighlights (doc : Option (ℕ → ℚ)) (nodes : List Child) :
    List Shared.BBoxHighlight :=
  match doc with
  | none => []
  | some H => traverseChildren H nodes

/-- pdf.js `getTextContent().items` entries: `TextItem`s (with `str`) or
`TextMarkedContent` (no `str`), which the source filters out with
`"str" in item`. -/
inductive ContentItem where
  | text (t : TextItem)
  | marked
  deriving DecidableEq, Repr

/-- A loaded `PDFDocumentProxy`, reduced to what `buildSearchIndex` reads:
the page count and each page's text content items. -/
structure PdfDoc where
  numPages : ℕ
  pageContent : ℕ → List ContentItem

/-- `textContent.items.filter((item): item is TextItem => "str" in item)`. -/
def textItemsOf (d : PdfDoc) (p : ℕ) : List TextItem :=
  (d.pageContent p).filterMap (fun it =>
    match it with
    | .text t => some t
    | .marked => none)

/-- part_002's `SearchableItem` (lines 21-26). -/
structure SearchableItemV where
  pageIndex : ℕ
  item : TextItem
  text : String
  id : String
  deriving DecidableEq, Repr

/-- part_002 198-228, `buildSearchIndex(doc)`: loops `pageIndex` from 1 to
`doc.numPages`, pushes one searchable item per text item (`forEach` with
zero-based `idx`, id `` `$\x7bpageIndex\x7d-$\x7bidx\x7d` ``), stores the list in
`searchItemsRef` and builds a lunr index with ref `id` and field `text`
over the same items (returned here as the list of `(id, text)` documents
added to the index). -/
def buildSearchIndex (d : PdfDoc) :
    List SearchableItemV × List (String × String) :=
  let items := (List.range' 1 d.numPages).foldl
    (fun acc p => acc ++ (textItemsOf d p).enum.map
      (fun pr => { pageIndex := p, item := pr.2, text := pr.2.str,
                   id := toString p ++ "-" ++ toString pr.1 }))
    []
  (items, items.map (fun it => (it.id, it.text)))

lemma foldl_append_eq_join {α β : Type} (f : α → List β) (l : List α)
    (acc : List β) :
    l.foldl (fun a x => a ++ f x) acc = acc ++ (l.map f).flatten := by
  induction l generalizing acc with
  | nil => simp
  | cons x xs ih => simp [ih, List.append_assoc]

end Viewer2

/-- Claim C1: for every structured-document node with bounding box
`[x1, y1, x2, y2]` in PDF space, a non-empty value and a (nonzero) page
number `p`, `parseJsonToHighlights` emits exactly one highlight for that
node, whose stored rectangle is `[x1, H p - y2, x2, H p - y1]` with `H p`
the page's unscaled viewport height: horizontal edges preserved, vertical
edges flipped from bottom-left-origin PDF coordinates to top-left-origin
screen coordinates. -/
theorem Viewer2.parseJsonToHighlights_flips (H : ℕ → ℚ) (n : Viewer2.Child)
    (rest : List Viewer2.Child) (x1 y1 x2 y2 : ℚ) (p : ℕ)
    (hb : n.bbox = some (x1, y1, x2, y2)) (hv : n.value ≠ "")
    (hp : n.page = some p) (hp0 : p ≠ 0) :
    parseJsonToHighlights (some H) (n :: rest) =
      { id := n.id, page := p, bbox := [x1, H p - y2, x2, H p - y1],
        value := n.value }
        :: (traverseChildren H n.children ++ traverseChildren H rest) := by
  cases n with
  | mk i pg v bb cs =>
      simp only [Child.bbox, Child.page, Child.value, Child.id,
        Child.children] at hb hv hp ⊢
      subst hb
      subst hp
      simp [parseJsonToHighlights, traverseChildren, traverse, hv, hp0]

/-- Witness for C1: a concrete node with bbox `[10, 20, 110, 40]` on a
page of height 792 yields the single rectangle `[10, 752, 110, 772]`. -/
theorem Viewer2.parseJsonToHighlights_flips_witness :
    Viewer2.parseJsonToHighlights (some (fun _ => 792))
        [.mk "node1" (some 2) "Title" (some (10, 20, 110, 40)) []] =
      [{ id := "node1", page := 2, bbox := [10, 752, 110, 772],
         value := "Title" }] := by
  have h := Viewer2.parseJsonToHighlights_flips (fun _ => 792)
    (.mk "node1" (some 2) "Title" (some (10, 20, 110, 40)) []) []
    10 20 110 40 2 rfl (by decide) rfl (by decide)
  simp only [Viewer2.Child.id, Viewer2.Child.value, Viewer2.Child.children,
    Viewer2.traverseChildren] at h
  norm_num at h
  exact h

/-- Claim C2: for a text run whose string contains a whole-word match of
the search text at character index `s`, with run origin `x = transform[4]`,
width `w` and string length `n`, `calculateHighlights` produces the
highlight with `left = x + s * (w / n)` and
`width = searchText.length * (w / n)` (uniform per-character width
`w / n`); a run with no whole-word match contributes no highlight, and the
function distributes over concatenation of runs. -/
theorem Viewer2.calculateHighlights_positions (viewportHeight : ℚ)
    (searchText : String) (m : Viewer2.TextItem) :
    (∀ s, wwIndex searchText m.str = some s →
      calculateHighlights [m] viewportHeight searchText =
        [{ left := (m.transform.getD [1, 0, 0, 1, 0, 0]).getD 4 0 +
             (s : ℚ) * (m.width.getD 0 / (m.str.length : ℚ)),
           top := viewportHeight -
             (m.transform.getD [1, 0, 0, 1, 0, 0]).getD 5 0 - 10,
           width := (searchText.length : ℚ) *
             (m.width.getD 0 / (m.str.length : ℚ)),
           height := m.height.getD 0 }]) ∧
    (wwIndex searchText m.str = none →
      calculateHighlights [m] viewportHeight searchText = []) ∧
    (∀ ms ms' : List Viewer2.TextItem,
      calculateHighlights (ms ++ ms') viewportHeight searchText =
        calculateHighlights ms viewportHeight searchText ++
          calculateHighlights ms' viewportHeight searchText) := by
  refine ⟨fun s hs => ?_, fun hn => ?_, fun ms ms' => ?_⟩
  · simp [calculateHighlights, hs]
  · simp [calculateHighlights, hn]
  · simp [calculateHighlights, List.filterMap_append]

/-- Witness for C2: the run "a cat" (origin 20, width 10, height 12, so
per-character width 2) with search text "cat" matching at index 2 on a
page of height 800 yields left `20 + 2·2 = 24` and width `3·2 = 6`. -/
theorem Viewer2.calculateHighlights_positions_witness :
    Viewer2.calculateHighlights
        [⟨"a cat", some [1, 0, 0, 1, 20, 700], some 10, some 12⟩]
        800 "cat" =
      [{ left := 24, top := 90, width := 6, height := 12 }] := by
  have h := (Viewer2.calculateHighlights_positions 800 "cat"
    ⟨"a cat", some [1, 0, 0, 1, 20, 700], some 10, some 12⟩).1 2 (by decide)
  norm_num [List.getD] at h
  rw [show "a cat".length = 5 from rfl, show "cat".length = 3 from rfl] at h
  norm_num at h
  exact h

/-- Claim C6: `buildSearchIndex` over a loaded document produces, for every
page `p` from 1 to `numPages` and every position `i` among that page's
text items (content items without a `str` field excluded), one searchable
item with id `"p-i"`, pageIndex `p` and the item's string as text; the
full list is stored as the searchable items and the index holds exactly
those `(id, text)` documents. -/
theorem Viewer2.buildSearchIndex_indexes (d : Viewer2.PdfDoc) :
    (buildSearchIndex d).1 =
      ((List.range' 1 d.numPages).map (fun p =>
        (textItemsOf d p).enum.map (fun pr =>
          { pageIndex := p, item := pr.2, text := pr.2.str,
            id := toString p ++ "-" ++ toString pr.1 }))).flatten ∧
    (buildSearchIndex d).2 =
      (buildSearchIndex d).1.map (fun it => (it.id, it.text)) ∧
    (∀ p, 1 ≤ p → p ≤ d.numPages →
      ∀ i, ∀ hi : i < (textItemsOf d p).length,
        ({ pageIndex := p, item := (textItemsOf d p)[i],
           text := (textItemsOf d p)[i].str,
           id := toString p ++ "-" ++ toString i } : SearchableItemV)
          ∈ (buildSearchIndex d).1) := by
  have h1 : (buildSearchIndex d).1 =
      ((List.range' 1 d.numPages).map (fun p =>
        (textItemsOf d p).enum.map (fun pr =>
          { pageIndex := p, item := pr.2, text := pr.2.str,
            id := toString p ++ "-" ++ toString pr.1 }))).flatten := by
    simp [buildSearchIndex, foldl_append_eq_join]
  refine ⟨h1, by simp [buildSearchIndex], ?_⟩
  intro p hp1 hp2 i hi
  rw [h1, List.mem_flatten]
  refine ⟨(textItemsOf d p).enum.map (fun pr =>
    { pageIndex := p, item := pr.2, text := pr.2.str,
      id := toString p ++ "-" ++ toString pr.1 }), ?_, ?_⟩
  · exact List.mem_map_of_mem _ (List.mem_range'_1.mpr ⟨hp1, by omega⟩)
  · have hmem : (i, (textItemsOf d p)[i]) ∈ (textItemsOf d p).enum := by
      have hlen : i < (textItemsOf d p).enum.length := by
        simpa [List.enum_length] using hi
      have := List.getElem_mem hlen
      simpa [List.getElem_enum] using this
    exact List.mem_map_of_mem _ hmem

/-- Witness for C6: a one-page document whose content is one text item
"hello" followed by a marked-content item indexes exactly the item with
id "1-0". -/
theorem Viewer2.buildSearchIndex_indexes_witness :
    ({ pageIndex := 1, item := ⟨"hello", none, none, none⟩, text := "hello",
       id := "1-0" } : Viewer2.SearchableItemV) ∈
      (Viewer2.buildSearchIndex
        ⟨1, fun _ => [.text ⟨"hello", none, none, none⟩, .marked]⟩).1 := by
  have h := (Viewer2.buildSearchIndex_indexes
    ⟨1, fun _ => [.text ⟨"hello", none, none, none⟩, .marked]⟩).2.2
    1 (by norm_num) (by norm_num) 0 (by simp [Viewer2.textItemsOf])
  simpa [Viewer2.textItemsOf] using h

namespace MainApp

/-!
Embedding of `src/App.tsx`: the main view.  API elements come from the
pasted JSON payload; bounding boxes there are records
`\x7b x, y, width, height \x7d` (type `BoundingBox`, App.tsx 9-14).
-/

/-- `App.tsx` 9-14. -/
structure BoundingBox where
  x : ℚ
  y : ℚ
  width : ℚ
  height : ℚ
  deriving DecidableEq, Repr

/-- `App.tsx` 16-24 (`APIElement`), restricted to the fields
`processAPIElements` reads (`type` and `level` are never read); an absent
`children` array behaves like an empty one under the source's guard
`element.children && element.children.length > 0`. -/
inductive APIElement where
  | mk (id : String) (page : ℤ) (value : String)
       (boundingBox : Option BoundingBox) (children : List APIElement)

def APIElement.id : APIElement → String
  | .mk i _ _ _ _ => i

def APIElement.page : APIElement → ℤ
  | .mk _ p _ _ _ => p

def APIElement.value : APIElement → String
  | .mk _ _ v _ _ => v

def APIElement.boundingBox : APIElement → Option BoundingBox
  | .mk _ _ _ b _ => b

def APIElement.children : APIElement → List APIElement
  | .mk _ _ _ _ cs => cs

/-- `App.tsx` 44-49 (`SearchableItem`). -/
structure SearchableItemA where
  id : String
  text : String
  pageIndex : ℤ
  boundingBox : Option BoundingBox
  deriving DecidableEq, Repr

/-- JavaScript `String.prototype.trim`: strip leading and trailing
whitespace (modelled on the character list so that it evaluates). -/
def jsTrim (s : String) : String :=
  ⟨((s.toList.dropWhile Char.isWhitespace).reverse.dropWhile
      Char.isWhitespace).reverse⟩

/-- `App.tsx` 86-111, `processAPIElements`: the recursive `processElement`
closure pushes an item for each element whose `value` is truthy with a
truthy `value.trim()` (`boundingBox: element.boundingBox || undefined` is
the bounding box unchanged, objects being truthy), then visits the
children; siblings are processed in input order (`forEach`). -/
def processAPIElements : List APIElement → List SearchableItemA
  | [] => []
  | .mk id page value bb cs :: es =>
      (if value ≠ "" ∧ jsTrim value ≠ "" then
        [{ id := id, text := value, pageIndex := page, boundingBox := bb }]
       else []) ++ (processAPIElements cs ++ processAPIElements es)

/-- Depth-first preorder of a forest of API elements: each node before its
children, siblings in input order. -/
def preorder : List APIElement → List APIElement
  | [] => []
  | .mk i p v b cs :: es => .mk i p v b cs :: (preorder cs ++ preorder es)

end MainApp

/-- Claim C5: `processAPIElements` returns exactly the searchable items of
the nodes whose value is non-empty after trimming, in depth-first preorder,
each carrying the node's id, value, page and bounding box; a node with a
blank value contributes no item but its children are still visited. -/
theorem MainApp.processAPIElements_preorder (elements : List MainApp.APIElement) :
    processAPIElements elements =
      (preorder elements).filterMap (fun e =>
        if jsTrim e.value ≠ "" then
          some { id := e.id, text := e.value, pageIndex := e.page,
                 boundingBox := e.boundingBox }
        else none) := by
  induction elements using MainApp.processAPIElements.induct with
  | case1 => simp [processAPIElements, preorder]
  | case2 id page value bb cs es ihc ihe =>
      by_cases hv : jsTrim value = ""
      · have hv' : ¬(value ≠ "" ∧ jsTrim value ≠ "") := by tauto
        simp [processAPIElements, preorder, APIElement.value, APIElement.id,
          APIElement.page, APIElement.boundingBox, hv, hv', ihc, ihe]
      · have hvne : value ≠ "" := by
          intro h
          exact hv (by rw [h]; decide)
        simp [processAPIElements, preorder, APIElement.value, APIElement.id,
          APIElement.page, APIElement.boundingBox, hv, hvne, ihc, ihe]

namespace MainApp

/-- `App.tsx` 36-42 (`Highlight`): the stored rectangle plus its page. -/
structure HighlightA where
  left : ℚ
  top : ℚ
  width : ℚ
  height : ℚ
  pageIndex : ℤ
  deriving DecidableEq, Repr

/-- `App.tsx` 131-144, `calculateHighlights`: keeps the matches that have a
bounding box and stores `left = boundingBox.x`, `top = boundingBox.y`,
`width`, `height` and the match's page unchanged
(`.filter(...boundingBox).map(...)` rendered as `filterMap`). -/
def calculateHighlights (ms : List SearchableItemA) : List HighlightA :=
  ms.filterMap (fun m =>
    m.boundingBox.map (fun b =>
      { left := b.x, top := b.y, width := b.width, height := b.height,
        pageIndex := m.pageIndex }))

/-- The slice of the main view's state that `goToElement` touches. -/
structure ViewState where
  metadata : Shared.Metadata
  highlights : List HighlightA
  deriving DecidableEq, Repr

/-- `App.tsx` 284-320, `goToElement`: reject a negative page index or a
1-based page number beyond `totalPages`; otherwise set `currentPage` and,
when the element has a bounding box, replace the highlights with the
single rectangle `(x, y, width, height)` taken from it unchanged. -/
def goToElement (st : ViewState) (element : SearchableItemA) : ViewState :=
  if element.pageIndex < 0 then st
  else if element.pageIndex + 1 > st.metadata.totalPages then st
  else
    let st1 : ViewState :=
      { st with metadata := { st.metadata with
          currentPage := element.pageIndex + 1 } }
    match element.boundingBox with
    | some b =>
        { st1 with highlights :=
            [{ left := b.x, top := b.y, width := b.width, height := b.height,
               pageIndex := element.pageIndex }] }
    | none => st1

end MainApp

/-- Counterexample to claim C3: for the concrete match whose bounding box
has PDF-space y-coordinate 10, the main view's `calculateHighlights`
stores top = 10, the PDF-space y value itself — not the value 90 obtained
by flipping it against a page height of 100 (or any flip: 10 ≠ 100 - 10).
So the main view's overlay top is NOT obtained by flipping against the
page height. -/
theorem MainApp.calculateHighlights_no_flip_cex :
    (MainApp.calculateHighlights
        [{ id := "e1", text := "t", pageIndex := 0,
           boundingBox := some { x := 5, y := 10, width := 50, height := 20 } }]
      ).map (fun h => h.top) = [10] ∧
    ¬ ((10 : ℚ) = 100 - 10) := by
  constructor
  · simp [MainApp.calculateHighlights]
  · norm_num

/-- Claim C3 (amended): in the main view, every overlay rectangle produced
from a structured-document bounding box — by `calculateHighlights` over
search matches and by `goToElement`'s single-element highlight — uses the
PDF-space bounding box values directly as screen coordinates: left = x and
top = y (no flip of the y-coordinate against the page height is applied),
with width and height unchanged. -/
theorem MainApp.mainview_raw_coordinates (ms : List MainApp.SearchableItemA)
    (st : MainApp.ViewState) (e : MainApp.SearchableItemA)
    (b : MainApp.BoundingBox) (hb : e.boundingBox = some b)
    (h0 : ¬ e.pageIndex < 0)
    (h1 : ¬ e.pageIndex + 1 > st.metadata.totalPages) :
    (calculateHighlights ms).map (fun h => (h.left, h.top)) =
      (ms.filterMap (fun m => m.boundingBox)).map (fun bb => (bb.x, bb.y)) ∧
    (goToElement st e).highlights =
      [{ left := b.x, top := b.y, width := b.width, height := b.height,
         pageIndex := e.pageIndex }] ∧
    (goToElement st e).metadata.currentPage = e.pageIndex + 1 := by
  refine ⟨?_, ?_, ?_⟩
  · induction ms with
    | nil => simp [calculateHighlights]
    | cons m ms ih =>
        cases hm : m.boundingBox with
        | none => simpa [calculateHighlights, hm] using ih
        | some bb => simpa [calculateHighlights, hm] using ih
  · simp [goToElement, h0, h1, hb]
  · simp [goToElement, h0, h1, hb]

/-- Witness for the amended C3 at a concrete element and state. -/
theorem MainApp.mainview_raw_coordinates_witness :
    (MainApp.calculateHighlights
        [{ id := "e1", text := "t", pageIndex := 0,
           boundingBox := some { x := 5, y := 10, width := 50, height := 20 } }]
      ).map (fun h => (h.left, h.top)) = [((5 : ℚ), (10 : ℚ))] ∧
    (MainApp.goToElement ⟨⟨3, 1, 800, 600⟩, []⟩
        { id := "e1", text := "t", pageIndex := 0,
          boundingBox := some { x := 5, y := 10, width := 50, height := 20 } }
      ).highlights =
      [{ left := 5, top := 10, width := 50, height := 20, pageIndex := 0 }] ∧
    (MainApp.goToElement ⟨⟨3, 1, 800, 600⟩, []⟩
        { id := "e1", text := "t", pageIndex := 0,
          boundingBox := some { x := 5, y := 10, width := 50, height := 20 } }
      ).metadata.currentPage = 0 + 1 := by
  have h := MainApp.mainview_raw_coordinates
    [{ id := "e1", text := "t", pageIndex := 0,
       boundingBox := some { x := 5, y := 10, width := 50, height := 20 } }]
    ⟨⟨3, 1, 800, 600⟩, []⟩
    { id := "e1", text := "t", pageIndex := 0,
      boundingBox := some { x := 5, y := 10, width := 50, height := 20 } }
    { x := 5, y := 10, width := 50, height := 20 }
    rfl (by norm_num) (by norm_num)
  refine ⟨?_, h.2.1, h.2.2⟩
  simpa using h.1

namespace MainApp

/-- `App.tsx` 202-235, `memoizedSearchResults`.  The lunr index is external
and modelled as an optional query function that either throws or returns a
list of document refs (`searchIndexRef.current` is `null` until an API
payload is processed; `searchItemsRef.current` is an array, hence always
truthy).  On a hit the refs are resolved against the searchable items,
grouped by page with `reduce`, and the groups sorted by page index. -/
def memoizedSearchResults
    (index : Option (String → Except Unit (List String)))
    (searchText : String) (items : List SearchableItemA) :
    List (ℤ × List SearchableItemA) :=
  match index with
  | none => []
  | some search =>
    if searchText = "" then []
    else
      match search searchText with
      | .error _ => []
      | .ok results =>
          (results.foldl (fun acc ref =>
            match items.find? (fun si => si.id == ref) with
            | none => acc
            | some item =>
                if acc.any (fun g => g.1 == item.pageIndex) then
                  acc.map (fun g =>
                    if g.1 == item.pageIndex then (g.1, g.2 ++ [item]) else g)
                else acc ++ [(item.pageIndex, [item])]) [])
            |>.mergeSort (fun a b => decide (a.1 ≤ b.1))

/-- The slice of the main view's state that `handleSearch` touches. -/
structure SearchState where
  searchText : String
  currentPage : ℤ
  searchResults : List (ℤ × List SearchableItemA)
  highlights : List HighlightA
  deriving DecidableEq, Repr

/-- `App.tsx` 146-156, `updateHighlightsForPage`: highlights of the page's
result group, or none. -/
def updateHighlightsForPage (st : SearchState) (pageIndex : ℤ) :
    SearchState :=
  match st.searchResults.find? (fun g => g.1 == pageIndex) with
  | some g => { st with highlights := calculateHighlights g.2 }
  | none => { st with highlights := [] }

/-- `App.tsx` 237-251, `handleSearch`: with empty search text it clears
both the results and the highlights and returns; otherwise it stores the
memoized results and recomputes the highlights for the current page from
the `searchResults` closed over at render time (the previous value — the
`setSearchResults` update is not yet visible to `updateHighlightsForPage`). -/
def handleSearch (index : Option (String → Except Unit (List String)))
    (items : List SearchableItemA) (st : SearchState) : SearchState :=
  if st.searchText = "" then
    { st with searchResults := [], highlights := [] }
  else
    { st with
        searchResults := memoizedSearchResults index st.searchText items
        highlights := (updateHighlightsForPage st st.currentPage).highlights }

end MainApp

/-- Claim C10: pressing Search with empty search text clears both the
search results and the highlights; and with non-empty search text, if the
search index is absent or the index query throws, the computed
search-result list is empty rather than an error being propagated. -/
theorem MainApp.handleSearch_empty_and_errors
    (index : Option (String → Except Unit (List String)))
    (items : List MainApp.SearchableItemA) (st : MainApp.SearchState)
    (f : String → Except Unit (List String)) (q : String) :
    (st.searchText = "" →
      handleSearch index items st =
        { st with searchResults := [], highlights := [] }) ∧
    memoizedSearchResults none q items = [] ∧
    (f q = .error () →
      memoizedSearchResults (some f) q items = []) := by
  refine ⟨fun he => by simp [handleSearch, he], rfl, fun hf => ?_⟩
  by_cases hq : q = "" <;> simp [memoizedSearchResults, hq, hf]

/-- Witness for C10: empty search text on a concrete state, the absent
index, and a concrete throwing query function. -/
theorem MainApp.handleSearch_empty_and_errors_witness :
    MainApp.handleSearch none [] ⟨"", 1, [(1, [])], [⟨1, 2, 3, 4, 1⟩]⟩ =
      { searchText := "", currentPage := 1, searchResults := [],
        highlights := [] } ∧
    MainApp.memoizedSearchResults none "cat" [] = [] ∧
    MainApp.memoizedSearchResults
      (some (fun _ => Except.error ())) "cat" [] = [] := by
  have h := MainApp.handleSearch_empty_and_errors none []
    ⟨"", 1, [(1, [])], [⟨1, 2, 3, 4, 1⟩]⟩ (fun _ => Except.error ()) "cat"
  exact ⟨h.1 rfl, h.2.1, h.2.2 rfl⟩

namespace MainApp

/-- A JavaScript value produced by `JSON.parse` (no `undefined` can occur
inside parsed JSON; an absent object field is `Option.none` at access
sites). -/
inductive JVal where
  | null
  | bool (b : Bool)
  | num (q : ℚ)
  | str (s : String)
  | arr (elems : List JVal)
  | obj (fields : List (String × JVal))

/-- Property lookup on an object's field list (first binding wins). -/
def lookupField (fs : List (String × JVal)) (k : String) : Option JVal :=
  (fs.find? (fun kv => kv.1 == k)).map (fun kv => kv.2)

/-- JavaScript truthiness of a possibly-undefined value: `undefined`,
`null`, `false`, `0` and `""` are falsy; arrays and objects are truthy. -/
def jsTruthy : Option JVal → Bool
  | none => false
  | some .null => false
  | some (.bool b) => b
  | some (.num q) => decide (q ≠ 0)
  | some (.str s) => decide (s ≠ "")
  | some (.arr _) => true
  | some (.obj _) => true

/-- JavaScript property access `v.k`: a TypeError on `null`, the field (or
`undefined`) on an object, `undefined` on any other value. -/
def JVal.getField : JVal → String → Except Unit (Option JVal)
  | .null, _ => .error ()
  | .obj fs, k => .ok (lookupField fs k)
  | _, _ => .ok none

/-- The item pushed by `processElement` when run on raw parsed JSON: `id`,
`pageIndex` and `boundingBox` are whatever JS values the element carries
(possibly `undefined`), `text` is the element's string value. -/
structure JItem where
  id : Option JVal
  text : String
  pageIndex : Option JVal
  boundingBox : Option JVal

lemma sizeOf_lookupField {fs : List (String × JVal)} {k : String} {v : JVal}
    (h : lookupField fs k = some v) : sizeOf v < sizeOf fs := by
  unfold lookupField at h
  cases hf : fs.find? (fun kv => kv.1 == k) with
  | none => simp [hf] at h
  | some kv =>
      simp only [hf, Option.map_some', Option.some.injEq] at h
      have hm : kv ∈ fs := List.mem_of_find?_eq_some hf
      have hs := List.sizeOf_lt_of_mem hm
      rw [← h]
      cases kv with
      | mk k' v' =>
          show sizeOf v' < sizeOf fs
          simp only [Prod.mk.sizeOf_spec] at hs
          omega

/-- The body of `processElement` (App.tsx 89-106) restricted to the
element's own pushed items, on a raw parsed-JSON element known to be an
object: `element.value && element.value.trim()` pushes the item when the
value is a string that stays non-empty after trimming, throws a TypeError
when the value is truthy but not a string (`.trim` is not a function), and
skips the push otherwise; `boundingBox: element.boundingBox || undefined`
turns a falsy bounding box into `undefined`. -/
def processOwn (fs : List (String × JVal)) : Except Unit (List JItem) :=
  match lookupField fs "value" with
  | some (JVal.str s) =>
      if s ≠ "" then
        if jsTrim s ≠ "" then
          Except.ok [{ id := lookupField fs "id", text := s,
                       pageIndex := lookupField fs "page",
                       boundingBox :=
                         if jsTruthy (lookupField fs "boundingBox") then
                           lookupField fs "boundingBox"
                         else none }]
        else Except.ok []
      else Except.ok []
  | some v => if jsTruthy (some v) then Except.error () else Except.ok []
  | none => Except.ok []

/-- `processAPIElements` (App.tsx 86-111) run on the raw parsed-JSON
`result` array, with JavaScript's exception behaviour: accessing
`element.value` on a `null` element throws; `element.children &&
element.children.length > 0` recurses into an array of children, throws
on a non-empty string (`forEach` is not a function), and skips everything
else (`.length` of other truthy values is `undefined`, and
`undefined > 0` is false); items arrive in depth-first push order. -/
def processJ : List JVal → Except Unit (List JItem)
  | [] => Except.ok []
  | JVal.null :: _ => Except.error ()
  | JVal.obj fs :: es => do
      let own ← processOwn fs
      let rest ←
        match hc : lookupField fs "children" with
        | some (JVal.arr cs) =>
            if cs.length > 0 then processJ cs else Except.ok []
        | some (JVal.str s) =>
            if s ≠ "" then Except.error () else Except.ok []
        | _ => Except.ok []
      let sib ← processJ es
      Except.ok (own ++ rest ++ sib)
  | _ :: es => processJ es
termination_by l => sizeOf l
decreasing_by
  all_goals simp_wf
  have h := sizeOf_lookupField hc
  simp only [JVal.arr.sizeOf_spec] at h
  omega

/-- The slice of the main view's state that `handleProcessAPI` touches:
`apiData`, `boundingElements`, the searchable items and the lunr index
(modelled as the `(id, text)` documents added by `buildSearchIndex`,
App.tsx 114-129). -/
structure APIState where
  apiData : Option JVal
  boundingElements : List JItem
  searchItems : List JItem
  searchIndex : Option (List (Option JVal × String))

/-- `App.tsx` 260-282, `handleProcessAPI`, with `JSON.parse` as an
external parameter (`none` = the parse threw): on a parse failure, a
TypeError reading `data.result`, or a missing / falsy / non-array
`result`, the handler alerts and leaves the state alone.  Otherwise
`setApiData(data)` runs first; a later exception inside
`processAPIElements` is caught after that update, so only `apiData` has
changed.  On full success `buildSearchIndex(data)` recomputes the same
items (it is deterministic) and stores them and the index documents. -/
def handleProcessAPI (parse : String → Option JVal) (input : String)
    (st : APIState) : APIState :=
  match parse input with
  | none => st
  | some data =>
      match data.getField "result" with
      | .error _ => st
      | .ok rOpt =>
          match rOpt with
          | some (JVal.arr elems) =>
              let st1 := { st with apiData := some data }
              match processJ elems with
              | .error _ => st1
              | .ok items =>
                  { st1 with
                      boundingElements := items
                      searchItems := items
                      searchIndex :=
                        some (items.map (fun it => (it.id, it.text))) }
          | _ => st

end MainApp

/-- Claim C4: if the pasted API text is not valid JSON, or parses to a
value whose `result` field is missing or is not an array, then
`handleProcessAPI` leaves the application state unchanged — `apiData`,
`boundingElements`, the searchable-items list and the search index keep
their previous values; and the state changes only when parsing and the
result-array check both succeed. -/
theorem MainApp.handleProcessAPI_atomic (parse : String → Option MainApp.JVal)
    (input : String) (st : MainApp.APIState) :
    (parse input = none → handleProcessAPI parse input st = st) ∧
    (∀ data, parse input = some data →
      (∀ elems, data.getField "result" ≠
        Except.ok (some (JVal.arr elems))) →
      handleProcessAPI parse input st = st) ∧
    (handleProcessAPI parse input st ≠ st →
      ∃ data elems, parse input = some data ∧
        data.getField "result" = Except.ok (some (JVal.arr elems))) := by
  refine ⟨fun hp => by simp [handleProcessAPI, hp], fun data hp hne => ?_,
    fun hch => ?_⟩
  · simp only [handleProcessAPI, hp]
    cases hg : data.getField "result" with
    | error e => rfl
    | ok rOpt =>
        cases rOpt with
        | none => rfl
        | some v =>
            cases v with
            | arr elems => exact absurd hg (hne elems)
            | null => rfl
            | bool b => rfl
            | num q => rfl
            | str s => rfl
            | obj fs => rfl
  · cases hp : parse input with
    | none => exact absurd (by simp [handleProcessAPI, hp]) hch
    | some data =>
        cases hg : data.getField "result" with
        | error e => exact absurd (by simp [handleProcessAPI, hp, hg]) hch
        | ok rOpt =>
            cases rOpt with
            | none => exact absurd (by simp [handleProcessAPI, hp, hg]) hch
            | some v =>
                cases v with
                | arr elems => exact ⟨data, elems, rfl, hg⟩
                | null =>
                    exact absurd (by simp [handleProcessAPI, hp, hg]) hch
                | bool b =>
                    exact absurd (by simp [handleProcessAPI, hp, hg]) hch
                | num q =>
                    exact absurd (by simp [handleProcessAPI, hp, hg]) hch
                | str s =>
                    exact absurd (by simp [handleProcessAPI, hp, hg]) hch
                | obj fs =>
                    exact absurd (by simp [handleProcessAPI, hp, hg]) hch

/-- Witness for C4: a parse that throws, and a parse producing an object
without a `result` array, both leave a concrete state untouched. -/
theorem MainApp.handleProcessAPI_atomic_witness :
    MainApp.handleProcessAPI (fun _ => none) "not json"
        ⟨none, [], [], none⟩ = ⟨none, [], [], none⟩ ∧
    MainApp.handleProcessAPI
        (fun _ => some (MainApp.JVal.obj [("message", MainApp.JVal.str "ok")]))
        "x" ⟨none, [], [], none⟩ = ⟨none, [], [], none⟩ := by
  constructor
  · exact (MainApp.handleProcessAPI_atomic (fun _ => none) "not json"
      ⟨none, [], [], none⟩).1 rfl
  · refine (MainApp.handleProcessAPI_atomic
      (fun _ => some (MainApp.JVal.obj [("message", MainApp.JVal.str "ok")]))
      "x" ⟨none, [], [], none⟩).2.1
      (MainApp.JVal.obj [("message", MainApp.JVal.str "ok")]) rfl ?_
    intro elems hcontra
    simp [MainApp.JVal.getField, MainApp.lookupField] at hcontra
